import Mathlib

/-!
Verification development for the compliance classification and filtering
engine of the service_now_agent repository
(`app/services/compliance.py` together with the abstract interface
`app/abstracts/compliance.py`).

The embedding is a direct shallow translation of the Python code:

* Python values (`Any`) are modelled by the inductive `Value`; `str(x)` is
  `pyStr` (and the `None → ""` coercion used by `_classify_field` is
  `classifyValueStr`).
* Python dicts are association lists (`Dict`) with unique keys; the dict
  well-formedness invariant (keys are unique) appears as a `Nodup`
  hypothesis where a theorem needs it.
* The six `re.search` calls are modelled concretely by an existential
  backtracking matcher over `List Char` (`reSearch`): a pattern is a
  function from a parse state to the list of all states reachable by
  consuming a prefix, and a search succeeds iff some start position admits
  some complete parse.  This is exactly the success condition of Python's
  backtracking engine on these patterns (no possessive or atomic
  constructs occur).  Character classes `\d`, `\w`, `\s` are modelled at
  their ASCII meaning (Python's `re` on `str` also accepts some non-ASCII
  characters for these classes; no claim here involves non-ASCII data).
* `hash(...)` in the masking table is seed-randomised in Python
  (`PYTHONHASHSEED`); it is modelled by the fixed function `pyHash`.  No
  claim observes its value.  `hashlib.sha256` inside
  `_encrypt_field_value` is likewise modelled by a placeholder
  (`sha256Hex16`); the development proves the encrypt branch unreachable
  under the static rule tables, so no claim observes its value either.
* Mutation of Python dict objects (`filter_data` / `mask_sensitive_fields`
  frame claims) is modelled by an explicit store of dicts (`Heap`) with
  allocate / read / write operations, so that "the callee does not mutate
  the caller's dict" and "mutating the returned dict does not affect the
  caller's dict" are real statements about distinct references.
-/

/-- Python `Any` values as far as this component observes them. -/
inductive Value where
  | vnone : Value
  | vstr : String → Value
  | vint : Int → Value
  | vbool : Bool → Value
deriving DecidableEq, Repr

/-- Decimal digits of a natural number, most significant first (fuel-driven). -/
def natDigitsAux : Nat → Nat → List Char
  | 0, _ => []
  | fuel + 1, n =>
    if n = 0 then [] else natDigitsAux fuel (n / 10) ++ [Char.ofNat (48 + n % 10)]

/-- Decimal rendering of a natural number, as Python `str` produces it. -/
def natToStr (n : Nat) : String :=
  if n = 0 then "0" else String.mk (natDigitsAux n n)

/-- Decimal rendering of an integer, as Python `str` produces it. -/
def intToStr : Int → String
  | Int.ofNat n => natToStr n
  | Int.negSucc n => "-" ++ natToStr (n + 1)

/-- Python `str(x)` on the modelled values. -/
def pyStr : Value → String
  | .vnone => "None"
  | .vstr s => s
  | .vint i => intToStr i
  | .vbool b => if b then "True" else "False"

/-- Model of `ComplianceLevel` (`app/abstracts/compliance.py`): a `str` enum with
members PUBLIC, INTERNAL, CONFIDENTIAL, RESTRICTED. -/
inductive ComplianceLevel where
  | PUBLIC | INTERNAL | CONFIDENTIAL | RESTRICTED
deriving DecidableEq, Repr

/-- The string value of each `ComplianceLevel` member. -/
def levelValue : ComplianceLevel → String
  | .PUBLIC => "public"
  | .INTERNAL => "internal"
  | .CONFIDENTIAL => "confidential"
  | .RESTRICTED => "restricted"

/-- The `level_hierarchy` map of `ComplianceFilter._is_more_restrictive`. -/
def levelHierarchy : ComplianceLevel → Nat
  | .PUBLIC => 0
  | .INTERNAL => 1
  | .CONFIDENTIAL => 2
  | .RESTRICTED => 3

/-- Model of `ComplianceFilter._is_more_restrictive`. -/
def isMoreRestrictive (fieldLevel targetLevel : ComplianceLevel) : Bool :=
  decide (levelHierarchy targetLevel < levelHierarchy fieldLevel)

/-- Model of `DataClassification` (`app/abstracts/compliance.py`). -/
structure DataClassification where
  field_name : String
  classification : ComplianceLevel
  reason : String
  action : String
deriving DecidableEq, Repr

/- ### Character classes (ASCII meaning of `\d`, `\w`, `\s`) -/

/-- Regex `\d` (ASCII). -/
def isDigitCh (c : Char) : Bool := 48 ≤ c.toNat && c.toNat ≤ 57

/-- Regex `\w` (ASCII). -/
def isWordCh (c : Char) : Bool := c.isAlpha || isDigitCh c || c == '_'

/-- Regex `\s` (ASCII). -/
def isSpaceCh (c : Char) : Bool :=
  c == ' ' || c == '\t' || c == '\n' || c == '\r' || c == '\x0b' || c == '\x0c'

/-- ASCII lowercasing, as `str.lower` acts on ASCII text. -/
def lowerCh (c : Char) : Char :=
  if 65 ≤ c.toNat && c.toNat ≤ 90 then Char.ofNat (c.toNat + 32) else c

/-- ASCII lowercasing of a string (Python `str.lower`). -/
def strLower (s : String) : String := String.mk (s.data.map lowerCh)

/- ### Existential regex matcher

A parse state is the last consumed character (for `\b`) together with the
remaining input.  A pattern maps a state to every state reachable by
consuming some prefix; `re.search` success is non-emptiness at some start
position. -/

/-- Parse state: last consumed character (none at the start of the input)
and remaining input. -/
abbrev PSt := Option Char × List Char

/-- Consume one character satisfying `p`. -/
def pChar (p : Char → Bool) : PSt → List PSt
  | (_, []) => []
  | (_, c :: r) => if p c then [(some c, r)] else []

/-- Sequential composition of patterns. -/
def pSeq (a b : PSt → List PSt) (s : PSt) : List PSt := (a s).flatMap b

/-- Regex `?`: zero or one occurrence. -/
def pOpt (a : PSt → List PSt) (s : PSt) : List PSt := s :: a s

/-- Regex `{n}` on a character class: exactly `n` characters. -/
def pCount (p : Char → Bool) : Nat → PSt → List PSt
  | 0, s => [s]
  | n + 1, s => (pChar p s).flatMap (pCount p n)

/-- At most `n` characters of class `p` (used for `{1,3}` ranges). -/
def pUpTo (p : Char → Bool) : Nat → PSt → List PSt
  | 0, s => [s]
  | n + 1, s => s :: (pChar p s).flatMap (pUpTo p n)

/-- One or more characters of class `p`: every nonempty prefix. -/
def pPlusAux (p : Char → Bool) : Option Char → List Char → List PSt
  | _, [] => []
  | _, c :: r => if p c then (some c, r) :: pPlusAux p (some c) r else []

/-- Regex `+` on a character class. -/
def pPlus (p : Char → Bool) (s : PSt) : List PSt := pPlusAux p s.1 s.2

/-- Regex `*` on a character class. -/
def pStar (p : Char → Bool) (s : PSt) : List PSt := s :: pPlusAux p s.1 s.2

/-- Case-insensitive literal (for the `(?i)` password pattern). -/
def pLitCI : List Char → PSt → List PSt
  | [], s => [s]
  | _ :: _, (_, []) => []
  | l :: ls, (_, c :: cs) => if lowerCh c == l then pLitCI ls (some c, cs) else []

/-- Alternation, tried in order. -/
def pAlt (ps : List (PSt → List PSt)) (s : PSt) : List PSt :=
  ps.flatMap (fun p => p s)

/-- Word-ness of the last consumed character (outside the string counts as
non-word). -/
def optWord : Option Char → Bool
  | none => false
  | some c => isWordCh c

/-- Word-ness of the next character (end of string counts as non-word). -/
def headWord : List Char → Bool
  | [] => false
  | c :: _ => isWordCh c

/-- Regex `\b`: zero-width word-boundary assertion. -/
def pBoundary (s : PSt) : List PSt :=
  if optWord s.1 != headWord s.2 then [s] else []

/-- Does the pattern admit a complete parse somewhere at or after this
state?  (Success condition of `re.search`.) -/
def reSearchAux (pat : PSt → List PSt) : Option Char → List Char → Bool
  | prev, [] => !(pat (prev, [])).isEmpty
  | prev, c :: rest => !(pat (prev, c :: rest)).isEmpty || reSearchAux pat (some c) rest

/-- Model of `re.search(pat, s)` viewed as a boolean. -/
def reSearch (pat : PSt → List PSt) (s : String) : Bool :=
  reSearchAux pat none s.data

/- ### The six content patterns of `_initialize_classification_rules` -/

/-- Separator class of the credit-card pattern, regex `[\s-]`. -/
def isCcSep (c : Char) : Bool := isSpaceCh c || c == '-'

/-- Separator class of the phone pattern, regex `[-.]`. -/
def isPhoneSep (c : Char) : Bool := c == '-' || c == '.'

/-- Local-part class of the email pattern, regex `[A-Za-z0-9._%+-]`. -/
def isEmailLocalCh (c : Char) : Bool :=
  c.isAlpha || isDigitCh c || c == '.' || c == '_' || c == '%' || c == '+' || c == '-'

/-- Domain class of the email pattern, regex `[A-Za-z0-9.-]`. -/
def isEmailDomCh (c : Char) : Bool :=
  c.isAlpha || isDigitCh c || c == '.' || c == '-'

/-- Top-level-domain class of the email pattern, regex `[A-Z|a-z]`
(the source's class really contains the bar character). -/
def isTldCh (c : Char) : Bool := c.isAlpha || c == '|'

/-- Regex `\b\d{3}-\d{2}-\d{4}\b` (SSN). -/
def ssnPat : PSt → List PSt :=
  pSeq pBoundary (pSeq (pCount isDigitCh 3) (pSeq (pChar (· == '-'))
    (pSeq (pCount isDigitCh 2) (pSeq (pChar (· == '-'))
      (pSeq (pCount isDigitCh 4) pBoundary)))))

/-- Regex `\b\d{4}[\s-]?\d{4}[\s-]?\d{4}[\s-]?\d{4}\b` (credit card). -/
def ccPat : PSt → List PSt :=
  pSeq pBoundary (pSeq (pCount isDigitCh 4) (pSeq (pOpt (pChar isCcSep))
    (pSeq (pCount isDigitCh 4) (pSeq (pOpt (pChar isCcSep))
      (pSeq (pCount isDigitCh 4) (pSeq (pOpt (pChar isCcSep))
        (pSeq (pCount isDigitCh 4) pBoundary)))))))

/-- Regex `(?i)(password|pwd|pass)\s*[:=]\s*\S+`. -/
def pwdPat : PSt → List PSt :=
  pSeq (pAlt [pLitCI ['p', 'a', 's', 's', 'w', 'o', 'r', 'd'],
              pLitCI ['p', 'w', 'd'],
              pLitCI ['p', 'a', 's', 's']])
    (pSeq (pStar isSpaceCh) (pSeq (pChar (fun c => c == ':' || c == '='))
      (pSeq (pStar isSpaceCh) (pPlus (fun c => !isSpaceCh c)))))

/-- Regex `\b[A-Za-z0-9._%+-]+@[A-Za-z0-9.-]+\.[A-Z|a-z]{2,}\b` (email). -/
def emailPat : PSt → List PSt :=
  pSeq pBoundary (pSeq (pPlus isEmailLocalCh) (pSeq (pChar (· == '@'))
    (pSeq (pPlus isEmailDomCh) (pSeq (pChar (· == '.'))
      (pSeq (pCount isTldCh 2) (pSeq (pStar isTldCh) pBoundary))))))

/-- Regex `\b\d{3}[-.]?\d{3}[-.]?\d{4}\b` (phone). -/
def phonePat : PSt → List PSt :=
  pSeq pBoundary (pSeq (pCount isDigitCh 3) (pSeq (pOpt (pChar isPhoneSep))
    (pSeq (pCount isDigitCh 3) (pSeq (pOpt (pChar isPhoneSep))
      (pSeq (pCount isDigitCh 4) pBoundary)))))

/-- One `\d{1,3}` group of the IP pattern. -/
def ipGroupDigits : PSt → List PSt :=
  pSeq (pCount isDigitCh 1) (pUpTo isDigitCh 2)

/-- Regex `\b(?:\d{1,3}\.){3}\d{1,3}\b` (IP address). -/
def ipPat : PSt → List PSt :=
  pSeq pBoundary
    (pSeq (pSeq ipGroupDigits (pChar (· == '.')))
      (pSeq (pSeq ipGroupDigits (pChar (· == '.')))
        (pSeq (pSeq ipGroupDigits (pChar (· == '.')))
          (pSeq ipGroupDigits pBoundary))))

/-- Search of the SSN pattern. -/
def ssnSearch (s : String) : Bool := reSearch ssnPat s

/-- Search of the credit-card pattern. -/
def ccSearch (s : String) : Bool := reSearch ccPat s

/-- Search of the password pattern. -/
def pwdSearch (s : String) : Bool := reSearch pwdPat s

/-- Search of the email pattern. -/
def emailSearch (s : String) : Bool := reSearch emailPat s

/-- Search of the phone pattern. -/
def phoneSearch (s : String) : Bool := reSearch phonePat s

/-- Search of the IP pattern. -/
def ipSearch (s : String) : Bool := reSearch ipPat s


/- ### Rule tables (`_initialize_classification_rules`) -/

/-- One entry of the `_classification_rules` dict: its key string, the
corresponding enum member, the exact-name set, the content patterns and the
configured action. -/
structure ClassRule where
  key : String
  level : ComplianceLevel
  fields : List String
  patterns : List (String → Bool)
  action : String

/-- The `restricted` rule set. -/
def restrictedRule : ClassRule :=
  { key := "restricted", level := .RESTRICTED,
    fields := ["password", "token", "api_key", "secret", "private_key",
               "ssn", "social_security_number", "credit_card", "bank_account"],
    patterns := [ssnSearch, ccSearch, pwdSearch],
    action := "remove" }

/-- The `confidential` rule set. -/
def confidentialRule : ClassRule :=
  { key := "confidential", level := .CONFIDENTIAL,
    fields := ["caller_id", "email", "phone", "mobile_phone", "address",
               "employee_number", "ip_address", "mac_address"],
    patterns := [emailSearch, phoneSearch, ipSearch],
    action := "mask" }

/-- The `internal` rule set. -/
def internalRule : ClassRule :=
  { key := "internal", level := .INTERNAL,
    fields := ["department", "manager", "location", "building",
               "assignment_group", "assigned_to", "work_notes"],
    patterns := [],
    action := "allow" }

/-- The `public` rule set. -/
def publicRule : ClassRule :=
  { key := "public", level := .PUBLIC,
    fields := ["number", "short_description", "state", "priority",
               "urgency", "impact", "category", "subcategory",
               "opened_at", "updated_at", "resolved_at"],
    patterns := [],
    action := "allow" }

/-- The `_classification_rules` dict in its (insertion-order) iteration order:
restricted, confidential, internal, public. -/
def classificationRules : List ClassRule :=
  [restrictedRule, confidentialRule, internalRule, publicRule]

/- ### `_classify_field` and `classify_data` -/

/-- A single-quote character as a string (used by the reason strings). -/
def sqStr : String := String.singleton (Char.ofNat 39)

/-- Reason string for a field-name match. -/
def nameReason (fname key : String) : String :=
  "Field name " ++ sqStr ++ fname ++ sqStr ++ " matches " ++ key ++ " classification"

/-- Reason string for a content-pattern match. -/
def patReason (key : String) : String :=
  "Field value matches " ++ key ++ " pattern"

/-- The default classification produced when no rule matches. -/
def defaultClassification (fname : String) : DataClassification :=
  { field_name := fname, classification := .INTERNAL,
    reason := "Default classification", action := "allow" }

/-- The coercion `str(field_value) if field_value is not None else ""`. -/
def classifyValueStr : Value → String
  | .vnone => ""
  | v => pyStr v

/-- The tier scan of `_classify_field`: for each rule in order, the
exact-name check, then the pattern checks; the default classification when
no rule matched. -/
def classifyWithRules (fname fnameLower vstr : String) :
    List ClassRule → Option DataClassification
  | [] => some (defaultClassification fname)
  | r :: rest =>
    if fnameLower ∈ r.fields then
      some { field_name := fname, classification := r.level,
             reason := nameReason fname r.key, action := r.action }
    else if r.patterns.any (fun p => p vstr) then
      some { field_name := fname, classification := r.level,
             reason := patReason r.key, action := r.action }
    else classifyWithRules fname fnameLower vstr rest

/-- Model of `ComplianceFilter._classify_field`. -/
def classifyField (fname : String) (v : Value) : Option DataClassification :=
  classifyWithRules fname (strLower fname) (classifyValueStr v) classificationRules

/-- A Python dict as an association list in iteration order (a real dict
has unique keys; that invariant is a hypothesis where needed). -/
abbrev Dict := List (String × Value)

/-- Dict lookup (`d[k]` / `k in d`). -/
def dictGet? : Dict → String → Option Value
  | [], _ => Option.none
  | (k, v) :: t, q => if k = q then some v else dictGet? t q

/-- Python `k in d`. -/
def dictHas (d : Dict) (q : String) : Bool := (dictGet? d q).isSome

/-- Lookup with a dummy default (used only under a `dictHas` guard). -/
def dictGetD (d : Dict) (q : String) : Value := (dictGet? d q).getD .vnone

/-- Python `del d[k]` (removes the key; keys are unique in a real dict). -/
def dictErase (d : Dict) (q : String) : Dict :=
  d.filter (fun p => decide (p.1 ≠ q))

/-- Python `d[k] = v`: update in place, or append when the key is new. -/
def dictSet : Dict → String → Value → Dict
  | [], q, v => [(q, v)]
  | (k, w) :: t, q, v => if k = q then (q, v) :: t else (k, w) :: dictSet t q v

/-- The keys of a dict in iteration order. -/
def dictKeys (d : Dict) : List String := d.map Prod.fst

/-- Model of `ComplianceFilter.classify_data`: one `classify_field` call per key in
iteration order, keeping the truthy results (`if classification:`). -/
def classifyData (d : Dict) : List DataClassification :=
  d.filterMap (fun p => classifyField p.1 p.2)

/- ### Masking helpers -/

/-- Python `hash(...)`, which is `PYTHONHASHSEED`-randomised across runs;
modelled as a fixed function.  No claim observes its value. -/
def pyHash (_ : String) : Nat := 0

/-- Python `f"{n:04d}"` for the `% 10000` pseudo-identifiers. -/
def pad4 (n : Nat) : String :=
  String.mk (List.replicate (4 - (natToStr n).length) '0' ++ (natToStr n).data)

/-- Model of `ComplianceFilter._mask_email`. -/
def maskEmail (email : String) : String :=
  if email.data.contains '@' then
    let locPart := email.data.takeWhile (fun c => c != '@')
    let domain := (email.data.dropWhile (fun c => c != '@')).tail
    let maskedLocal :=
      if 2 < locPart.length then
        [locPart.headD ' '] ++ List.replicate (locPart.length - 2) '*' ++ [locPart.getLastD ' ']
      else List.replicate locPart.length '*'
    String.mk (maskedLocal ++ ['@'] ++ domain)
  else String.mk (List.replicate email.length '*')

/-- Model of `ComplianceFilter._mask_phone` (`re.sub(r'\D', '', phone)` keeps the
digits). -/
def maskPhone (phone : String) : String :=
  let digitsOnly := phone.data.filter isDigitCh
  if 10 ≤ digitsOnly.length then
    String.mk (['*', '*', '*', '-', '*', '*', '*', '-'] ++
               digitsOnly.drop (digitsOnly.length - 4))
  else String.mk (List.replicate phone.length '*')

/-- Python `s.split('.')` (all separators, empty pieces kept). -/
def splitOn (sep : Char) : List Char → List (List Char)
  | [] => [[]]
  | x :: t =>
    if x = sep then [] :: splitOn sep t
    else
      match splitOn sep t with
      | [] => [[x]]
      | h :: r => (x :: h) :: r

/-- Model of `ComplianceFilter._mask_ip`. -/
def maskIp (ip : String) : String :=
  let parts := splitOn '.' ip.data
  if parts.length = 4 then
    String.mk (parts.headD [] ++ ['.'] ++ parts.getD 1 [] ++
               ['.', '*', '*', '*', '.', '*', '*'])
  else String.mk (List.replicate ip.length '*')

/-- The `default` masking lambda: `'*' * min(len(str(x)), 8)`. -/
def defaultMask (v : Value) : String :=
  String.mk (List.replicate (min (pyStr v).length 8) '*')

/-- The `_initialize_masking_patterns` table in iteration order. -/
def maskingPatterns : List (String × (Value → String)) :=
  [("email", fun x => maskEmail (pyStr x)),
   ("phone", fun x => maskPhone (pyStr x)),
   ("ip_address", fun x => maskIp (pyStr x)),
   ("caller_id", fun x => "USER_" ++ pad4 (pyHash (pyStr x) % 10000)),
   ("employee_number", fun x => "EMP_" ++ pad4 (pyHash (pyStr x) % 10000)),
   ("default", defaultMask)]

/-- Python substring test `sub in hay`. -/
def subSearch (sub : List Char) : List Char → Bool
  | [] => sub.isPrefixOf []
  | c :: t => sub.isPrefixOf (c :: t) || subSearch sub t

/-- Python substring test on strings. -/
def strContains (hay sub : String) : Bool := subSearch sub.data hay.data

/-- Model of `ComplianceFilter._mask_field_value`: first masking pattern whose name
occurs in the lowercased field name, falling back to the default masker. -/
def maskFieldValue (fname : String) (v : Value) : String :=
  match maskingPatterns.find? (fun p => strContains (strLower fname) p.1) with
  | some p => p.2 v
  | Option.none => defaultMask v

/-- First 16 hex characters of `hashlib.sha256(str(x).encode())`;
modelled as a placeholder, the encrypt branch being unreachable under the
static rule tables (proved below).  No claim observes its value. -/
def sha256Hex16 (_ : String) : String := ""

/-- Model of `ComplianceFilter._encrypt_field_value`. -/
def encryptFieldValue (v : Value) : String :=
  "ENCRYPTED_" ++ sha256Hex16 (pyStr v)

/- ### `filter_data`, scoring, validation, `mask_sensitive_fields` -/

/-- One iteration of the `filter_data` action loop, acting on the filtered
dict and the removed/masked name lists. -/
def stepFilter (st : Dict × List String × List String) (c : DataClassification) :
    Dict × List String × List String :=
  if c.action = "remove" then
    if dictHas st.1 c.field_name then
      (dictErase st.1 c.field_name, st.2.1 ++ [c.field_name], st.2.2)
    else st
  else if c.action = "mask" then
    if dictHas st.1 c.field_name then
      (dictSet st.1 c.field_name
        (.vstr (maskFieldValue c.field_name (dictGetD st.1 c.field_name))),
       st.2.1, st.2.2 ++ [c.field_name])
    else st
  else if c.action = "encrypt" then
    if dictHas st.1 c.field_name then
      (dictSet st.1 c.field_name
        (.vstr (encryptFieldValue (dictGetD st.1 c.field_name))),
       st.2.1, st.2.2)
    else st
  else st

/-- The compliant-count loop of `_calculate_compliance_score`. -/
def calcCompliantCount (cls : List DataClassification) (target : ComplianceLevel) : Nat :=
  cls.foldl (fun acc c =>
    if !isMoreRestrictive c.classification target then acc + 1
    else if c.action ∈ ["mask", "remove", "encrypt"] then acc + 1
    else acc) 0

/-- Model of `ComplianceFilter._calculate_compliance_score`.  The Python float
division is modelled as exact rational division. -/
def calculateComplianceScore (cls : List DataClassification)
    (target : ComplianceLevel) : ℚ :=
  if cls.isEmpty then 1
  else (calcCompliantCount cls target : ℚ) / (cls.length : ℚ)

/-- Model of `ComplianceResult` (`app/abstracts/compliance.py`). -/
structure ComplianceResult where
  original_data : Dict
  filtered_data : Dict
  removed_fields : List String
  masked_fields : List String
  classifications : List DataClassification
  compliance_score : ℚ
deriving DecidableEq, Repr

/-- Model of `ComplianceFilter.filter_data` (pure view: the heap-level version below
refines the object mutation). -/
def filterData (d : Dict) (target : ComplianceLevel) : ComplianceResult :=
  let cls := classifyData d
  let st := cls.foldl stepFilter (d, [], [])
  { original_data := d, filtered_data := st.1, removed_fields := st.2.1,
    masked_fields := st.2.2, classifications := cls,
    compliance_score := calculateComplianceScore cls target }

/-- The early-return loop of `validate_compliance`. -/
def validateLoop (required : ComplianceLevel) : List DataClassification → Bool
  | [] => true
  | c :: rest =>
    if isMoreRestrictive c.classification required then
      if c.action = "allow" then false else validateLoop required rest
    else validateLoop required rest

/-- Model of `ComplianceFilter.validate_compliance`. -/
def validateCompliance (d : Dict) (required : ComplianceLevel) : Bool :=
  validateLoop required (classifyData d)

/-- One iteration of the `mask_sensitive_fields` loop. -/
def maskStep (md : Dict) (f : String) : Dict :=
  if dictHas md f then
    dictSet md f (.vstr (maskFieldValue f (dictGetD md f)))
  else md

/-- Model of `ComplianceFilter.mask_sensitive_fields` (pure view).  The requested
field names are taken as a list because Python iterates the set in an
unspecified order; `Nodup` stands in for set-ness where a theorem needs it. -/
def maskSensitiveFields (d : Dict) (fieldsToMask : List String) : Dict :=
  fieldsToMask.foldl maskStep d

/- ### Store model for the mutation (frame) claims -/

/-- A store of dict objects; a reference is an index. -/
abbrev Heap := List Dict

/-- Dereference (reads the empty dict at a dangling reference). -/
def readH (h : Heap) (r : Nat) : Dict := h.getD r []

/-- In-place update of the object at a reference. -/
def writeH (h : Heap) (r : Nat) (d : Dict) : Heap := h.set r d

/-- Allocation of a fresh object (`data.copy()` allocates). -/
def allocH (h : Heap) (d : Dict) : Heap × Nat := (h ++ [d], h.length)

/-- One `filter_data` loop iteration acting on the filtered object in the
store. -/
def stepFilterH (fRef : Nat) (st : Heap × List String × List String)
    (c : DataClassification) : Heap × List String × List String :=
  let next := stepFilter (readH st.1 fRef, st.2.1, st.2.2) c
  (writeH st.1 fRef next.1, next.2.1, next.2.2)

/-- The result of the store-level `filter_data`: `original_data` and
`filtered_data` are references into the store. -/
structure FilterResultH where
  origRef : Nat
  filtRef : Nat
  removed_fields : List String
  masked_fields : List String
  classifications : List DataClassification
  compliance_score : ℚ

/-- Model of `ComplianceFilter.filter_data` at the store level: classify the record
behind `dataRef`, allocate the copy, run the action loop mutating only the
copy, and return the result referencing both objects. -/
def filterDataH (h : Heap) (dataRef : Nat) (target : ComplianceLevel) :
    Heap × FilterResultH :=
  let d := readH h dataRef
  let cls := classifyData d
  let alloc := allocH h d
  let st := cls.foldl (stepFilterH alloc.2) (alloc.1, [], [])
  (st.1,
   { origRef := dataRef, filtRef := alloc.2, removed_fields := st.2.1,
     masked_fields := st.2.2, classifications := cls,
     compliance_score := calculateComplianceScore cls target })

/-- One `mask_sensitive_fields` loop iteration acting on the copy in the
store (no write happens when the requested field is absent). -/
def maskStepH (mRef : Nat) (hh : Heap) (f : String) : Heap :=
  let md := readH hh mRef
  if dictHas md f then
    writeH hh mRef (dictSet md f (.vstr (maskFieldValue f (dictGetD md f))))
  else hh

/-- Model of `ComplianceFilter.mask_sensitive_fields` at the store level: allocate
the copy, then mask the requested fields in place on the copy. -/
def maskSensitiveFieldsH (h : Heap) (dataRef : Nat)
    (fieldsToMask : List String) : Heap × Nat :=
  let d := readH h dataRef
  let alloc := allocH h d
  let fin := fieldsToMask.foldl (maskStepH alloc.2) alloc.1
  (fin, alloc.2)

/- ### Basic facts about the classifier -/

/-- Every tier scan produces a classification (each branch returns `some`). -/
lemma classifyWithRules_isSome (fname fl vs : String) (rs : List ClassRule) :
    (classifyWithRules fname fl vs rs).isSome := by
  induction rs with
  | nil => rfl
  | cons r rest ih =>
    simp only [classifyWithRules]
    split_ifs <;> simp [ih]

/-- The function `_classify_field` always returns a classification. -/
lemma classifyField_isSome (fname : String) (v : Value) :
    (classifyField fname v).isSome :=
  classifyWithRules_isSome fname (strLower fname) (classifyValueStr v) classificationRules

/-- The classification names the field it was produced for. -/
lemma classifyWithRules_field_name (fname fl vs : String) (rs : List ClassRule)
    (c : DataClassification) (h : classifyWithRules fname fl vs rs = some c) :
    c.field_name = fname := by
  induction rs with
  | nil =>
    simp only [classifyWithRules, Option.some.injEq] at h
    rw [← h]
    rfl
  | cons r rest ih =>
    simp only [classifyWithRules] at h
    split_ifs at h <;>
      first
        | (simp only [Option.some.injEq] at h; rw [← h])
        | exact ih h

/-- The `classifyField` version of the previous lemma. -/
lemma classifyField_field_name (fname : String) (v : Value)
    (c : DataClassification) (h : classifyField fname v = some c) :
    c.field_name = fname :=
  classifyWithRules_field_name fname (strLower fname) (classifyValueStr v)
    classificationRules c h

/-- A tier scan only hands out actions found in the rules, or the default. -/
lemma classifyWithRules_action (fname fl vs : String) (rs : List ClassRule)
    (c : DataClassification)
    (hr : ∀ r ∈ rs, r.action = "remove" ∨ r.action = "mask" ∨ r.action = "allow")
    (h : classifyWithRules fname fl vs rs = some c) :
    c.action = "remove" ∨ c.action = "mask" ∨ c.action = "allow" := by
  induction rs with
  | nil =>
    simp only [classifyWithRules, Option.some.injEq] at h
    rw [← h]
    right; right; rfl
  | cons r rest ih =>
    simp only [classifyWithRules] at h
    have hrr := hr r (by simp)
    split_ifs at h <;>
      first
        | (simp only [Option.some.injEq] at h; rw [← h]; exact hrr)
        | exact ih (fun r' h' => hr r' (List.mem_cons_of_mem _ h')) h

/-- Every action of the four static rule sets is remove, mask, or allow. -/
lemma classificationRules_actions :
    ∀ r ∈ classificationRules,
      r.action = "remove" ∨ r.action = "mask" ∨ r.action = "allow" := by
  intro r hr
  simp only [classificationRules, List.mem_cons, List.not_mem_nil, or_false] at hr
  rcases hr with h | h | h | h <;> subst h <;> simp [restrictedRule, confidentialRule,
    internalRule, publicRule]

/-- Under the static rules, `_classify_field` only hands out remove, mask
or allow. -/
lemma classifyField_action (fname : String) (v : Value) (c : DataClassification)
    (h : classifyField fname v = some c) :
    c.action = "remove" ∨ c.action = "mask" ∨ c.action = "allow" :=
  classifyWithRules_action fname (strLower fname) (classifyValueStr v)
    classificationRules c classificationRules_actions h

/- ### `classify_data`: one classification per key, in order -/

/-- The classification names are exactly the record keys, in order. -/
lemma classifyData_names (d : Dict) :
    (classifyData d).map (fun c => c.field_name) = dictKeys d := by
  induction d with
  | nil => rfl
  | cons p t ih =>
    obtain ⟨k, v⟩ := p
    obtain ⟨c, hc⟩ := Option.isSome_iff_exists.mp (classifyField_isSome k v)
    simp only [classifyData, List.filterMap_cons, hc]
    simp only [classifyData] at ih
    simp [List.map_cons, ih, dictKeys, classifyField_field_name k v c hc]

/-- Operation `classify_data` yields exactly one classification per record key. -/
lemma classifyData_length (d : Dict) : (classifyData d).length = d.length := by
  have := congrArg List.length (classifyData_names d)
  simpa [dictKeys] using this

/-- Unfolding of `classify_data` on one field. -/
lemma classifyData_cons (k : String) (v : Value) (t : Dict) (c : DataClassification)
    (hc : classifyField k v = some c) :
    classifyData ((k, v) :: t) = c :: classifyData t := by
  simp [classifyData, List.filterMap_cons, hc]

/- ### Dict operation lemmas -/

/-- Lookup after `del` (`dictErase`). -/
lemma dictGet?_erase (q k : String) (d : Dict) :
    dictGet? (dictErase d q) k = if k = q then Option.none else dictGet? d k := by
  induction d with
  | nil => simp [dictErase, dictGet?]
  | cons p t ih =>
    obtain ⟨a, b⟩ := p
    by_cases haq : a = q
    · subst haq
      have h1 : dictErase ((a, b) :: t) a = dictErase t a := by simp [dictErase]
      rw [h1, ih]
      by_cases hk : k = a
      · simp [hk]
      · rw [if_neg hk, if_neg hk, dictGet?, if_neg (fun hh : a = k => hk hh.symm)]
    · have h1 : dictErase ((a, b) :: t) q = (a, b) :: dictErase t q := by
        simp [dictErase, haq]
      rw [h1]
      by_cases hk : k = q
      · subst hk
        rw [dictGet?, if_neg haq, ih]
        simp
      · rw [if_neg hk, dictGet?, dictGet?]
        by_cases hak : a = k
        · simp [hak]
        · rw [if_neg hak, if_neg hak, ih, if_neg hk]

/-- Lookup after assignment (`dictSet`). -/
lemma dictGet?_set (q k : String) (v : Value) (d : Dict) :
    dictGet? (dictSet d q v) k = if k = q then some v else dictGet? d k := by
  induction d with
  | nil =>
    simp only [dictSet, dictGet?]
    by_cases hk : k = q
    · simp [hk]
    · rw [if_neg (fun h => hk h.symm), if_neg hk]
  | cons p t ih =>
    obtain ⟨a, b⟩ := p
    simp only [dictSet]
    by_cases haq : a = q
    · subst haq
      rw [if_pos rfl]
      by_cases hk : k = a
      · subst hk
        rw [dictGet?, if_pos rfl, if_pos rfl]
      · rw [dictGet?, if_neg (fun h => hk h.symm), if_neg hk, dictGet?,
          if_neg (fun h => hk h.symm)]
    · rw [if_neg haq]
      by_cases hk : k = q
      · subst hk
        rw [dictGet?, if_neg haq, ih]
        simp
      · rw [if_neg hk, dictGet?, dictGet?]
        by_cases hak : a = k
        · simp [hak]
        · rw [if_neg hak, if_neg hak, ih, if_neg hk]

/-- Membership in terms of keys. -/
lemma dictHas_iff_mem_keys (d : Dict) (k : String) :
    dictHas d k = true ↔ k ∈ dictKeys d := by
  induction d with
  | nil => simp [dictHas, dictGet?, dictKeys]
  | cons p t ih =>
    obtain ⟨a, b⟩ := p
    simp only [dictHas, dictGet?, dictKeys, List.map_cons, List.mem_cons]
    by_cases hak : a = k
    · simp [hak]
    · rw [if_neg hak]
      simp only [dictHas, dictKeys] at ih
      rw [ih]
      constructor
      · exact fun h => Or.inr h
      · rintro (h | h)
        · exact absurd h.symm hak
        · exact h

/- ### The `filter_data` action loop -/

/-- The effect of one loop iteration on the filtered dict alone. -/
def stepFd (fd : Dict) (c : DataClassification) : Dict :=
  if c.action = "remove" then dictErase fd c.field_name
  else if c.action = "mask" then
    dictSet fd c.field_name (.vstr (maskFieldValue c.field_name (dictGetD fd c.field_name)))
  else if c.action = "encrypt" then
    dictSet fd c.field_name (.vstr (encryptFieldValue (dictGetD fd c.field_name)))
  else fd

/-- Names of the classifications carrying a given action, in order. -/
def actionNames (a : String) (cls : List DataClassification) : List String :=
  (cls.filter (fun c => decide (c.action = a))).map (fun c => c.field_name)

/-- When the field is present, one loop iteration splits into the dict
effect and the bookkeeping appends. -/
lemma stepFilter_eq (st : Dict × List String × List String) (c : DataClassification)
    (h : dictHas st.1 c.field_name = true) :
    stepFilter st c =
      (stepFd st.1 c,
       st.2.1 ++ (if c.action = "remove" then [c.field_name] else []),
       st.2.2 ++ (if c.action = "mask" then [c.field_name] else [])) := by
  by_cases h1 : c.action = "remove"
  · simp [stepFilter, stepFd, h1, h]
  · by_cases h2 : c.action = "mask"
    · simp [stepFilter, stepFd, h1, h2, h]
    · by_cases h3 : c.action = "encrypt"
      · simp [stepFilter, stepFd, h1, h2, h3, h]
      · simp [stepFilter, stepFd, h1, h2, h3]

/-- A loop iteration leaves every other key untouched. -/
lemma dictGet?_stepFd_ne (fd : Dict) (c : DataClassification) (k : String)
    (hk : ¬k = c.field_name) :
    dictGet? (stepFd fd c) k = dictGet? fd k := by
  unfold stepFd
  split_ifs <;> simp [dictGet?_erase, dictGet?_set, hk]

/-- A loop iteration acts on the classified key according to the action. -/
lemma dictGet?_stepFd_self (fd : Dict) (c : DataClassification) :
    dictGet? (stepFd fd c) c.field_name =
      if c.action = "remove" then Option.none
      else if c.action = "mask" then
        some (.vstr (maskFieldValue c.field_name (dictGetD fd c.field_name)))
      else if c.action = "encrypt" then
        some (.vstr (encryptFieldValue (dictGetD fd c.field_name)))
      else dictGet? fd c.field_name := by
  unfold stepFd
  split_ifs <;> simp [dictGet?_erase, dictGet?_set]

/-- Membership in `actionNames`. -/
lemma mem_actionNames (a k : String) (cls : List DataClassification) :
    k ∈ actionNames a cls ↔ ∃ c ∈ cls, c.field_name = k ∧ c.action = a := by
  simp only [actionNames, List.mem_map, List.mem_filter, decide_eq_true_eq]
  constructor
  · rintro ⟨c, ⟨hc, ha⟩, hn⟩
    exact ⟨c, hc, hn, ha⟩
  · rintro ⟨c, hc, hn, ha⟩
    exact ⟨c, ⟨hc, ha⟩, hn⟩

/-- Main loop invariant: given distinct classified names all present in the
dict, the fold produces exactly the remove-action names, the mask-action
names, and the pointwise-described filtered dict. -/
lemma foldl_stepFilter_spec (cls : List DataClassification) :
    ∀ (fd : Dict) (rem msk : List String),
    (cls.map (fun c => c.field_name)).Nodup →
    (∀ c ∈ cls, dictHas fd c.field_name = true) →
    (cls.foldl stepFilter (fd, rem, msk)).2.1 = rem ++ actionNames "remove" cls ∧
    (cls.foldl stepFilter (fd, rem, msk)).2.2 = msk ++ actionNames "mask" cls ∧
    ∀ k, dictGet? (cls.foldl stepFilter (fd, rem, msk)).1 k =
      match cls.find? (fun c => decide (c.field_name = k)) with
      | some c =>
        if c.action = "remove" then Option.none
        else if c.action = "mask" then
          some (.vstr (maskFieldValue k (dictGetD fd k)))
        else if c.action = "encrypt" then
          some (.vstr (encryptFieldValue (dictGetD fd k)))
        else dictGet? fd k
      | Option.none => dictGet? fd k := by
  induction cls with
  | nil =>
    intro fd rem msk _ _
    refine ⟨by simp [actionNames], by simp [actionNames], ?_⟩
    intro k
    simp [List.find?]
  | cons c rest ih =>
    intro fd rem msk hnd hpres
    have hhas : dictHas fd c.field_name = true := hpres c (List.mem_cons_self c rest)
    rw [List.map_cons, List.nodup_cons] at hnd
    obtain ⟨hname, hnd'⟩ := hnd
    have hstep : (c :: rest).foldl stepFilter (fd, rem, msk) =
        rest.foldl stepFilter
          (stepFd fd c,
           rem ++ (if c.action = "remove" then [c.field_name] else []),
           msk ++ (if c.action = "mask" then [c.field_name] else [])) := by
      rw [List.foldl_cons, stepFilter_eq (fd, rem, msk) c hhas]
    have hpres' : ∀ c' ∈ rest, dictHas (stepFd fd c) c'.field_name = true := by
      intro c' hc'
      have hne : ¬c'.field_name = c.field_name := by
        intro hh
        exact hname (hh ▸ List.mem_map_of_mem (fun x => x.field_name) hc')
      rw [dictHas, dictGet?_stepFd_ne fd c c'.field_name hne]
      exact hpres c' (List.mem_cons_of_mem c hc')
    obtain ⟨h1, h2, h3⟩ :=
      ih (stepFd fd c)
        (rem ++ (if c.action = "remove" then [c.field_name] else []))
        (msk ++ (if c.action = "mask" then [c.field_name] else []))
        hnd' hpres'
    refine ⟨?_, ?_, ?_⟩
    · rw [hstep, h1]
      by_cases hr : c.action = "remove" <;>
        simp [actionNames, List.filter_cons, hr, List.append_assoc]
    · rw [hstep, h2]
      by_cases hm : c.action = "mask" <;>
        simp [actionNames, List.filter_cons, hm, List.append_assoc]
    · intro k
      rw [hstep, h3 k]
      by_cases hk : c.field_name = k
      · subst hk
        have hfr : rest.find? (fun c' => decide (c'.field_name = c.field_name)) =
            Option.none := by
          apply List.find?_eq_none.mpr
          intro c' hc'
          simp only [decide_eq_true_eq]
          intro hh
          exact hname (hh ▸ List.mem_map_of_mem (fun x => x.field_name) hc')
        rw [hfr, List.find?_cons_of_pos _ (by simp)]
        exact dictGet?_stepFd_self fd c
      · have hg : dictGet? (stepFd fd c) k = dictGet? fd k :=
          dictGet?_stepFd_ne fd c k (fun hh => hk hh.symm)
        have hgd : dictGetD (stepFd fd c) k = dictGetD fd k := by
          rw [dictGetD, dictGetD, hg]
        rw [List.find?_cons_of_neg _ (by simp [hk])]
        cases hfind : rest.find? (fun c' => decide (c'.field_name = k)) with
        | none => simp [hg]
        | some c' => simp [hgd, hg]

/-- Operation `filter_data` unpacked through the loop invariant (assuming the dict
well-formedness invariant: unique keys). -/
lemma filterData_spec (d : Dict) (t : ComplianceLevel)
    (hnd : (dictKeys d).Nodup) :
    (filterData d t).removed_fields = actionNames "remove" (classifyData d) ∧
    (filterData d t).masked_fields = actionNames "mask" (classifyData d) ∧
    ∀ k, dictGet? (filterData d t).filtered_data k =
      match (classifyData d).find? (fun c => decide (c.field_name = k)) with
      | some c =>
        if c.action = "remove" then Option.none
        else if c.action = "mask" then
          some (.vstr (maskFieldValue k (dictGetD d k)))
        else if c.action = "encrypt" then
          some (.vstr (encryptFieldValue (dictGetD d k)))
        else dictGet? d k
      | Option.none => dictGet? d k := by
  have hnames : ((classifyData d).map (fun c => c.field_name)).Nodup := by
    rw [classifyData_names]
    exact hnd
  have hpres : ∀ c ∈ classifyData d, dictHas d c.field_name = true := by
    intro c hc
    rw [dictHas_iff_mem_keys, ← classifyData_names]
    exact List.mem_map_of_mem (fun x => x.field_name) hc
  obtain ⟨h1, h2, h3⟩ := foldl_stepFilter_spec (classifyData d) d [] [] hnames hpres
  exact ⟨by simpa using h1, by simpa using h2, h3⟩

/- ### Compliance-score lemmas -/

/-- The spec-side compliance predicate: a classification is compliant for a
target tier when its tier is not strictly more restrictive than the target,
or its action is one of mask, remove, encrypt. -/
def specCompliant (t : ComplianceLevel) (c : DataClassification) : Bool :=
  !isMoreRestrictive c.classification t ||
    decide (c.action ∈ (["mask", "remove", "encrypt"] : List String))

/-- The score loop counts exactly the `specCompliant` classifications. -/
lemma calcCompliantCount_eq_countP (cls : List DataClassification)
    (t : ComplianceLevel) :
    calcCompliantCount cls t = cls.countP (specCompliant t) := by
  suffices h : ∀ acc : Nat,
      cls.foldl (fun acc c =>
        if !isMoreRestrictive c.classification t then acc + 1
        else if c.action ∈ ["mask", "remove", "encrypt"] then acc + 1
        else acc) acc = acc + cls.countP (specCompliant t) by
    simpa [calcCompliantCount] using h 0
  induction cls with
  | nil => intro acc; simp
  | cons c rest ih =>
    intro acc
    rw [List.foldl_cons, List.countP_cons]
    by_cases h1 : isMoreRestrictive c.classification t
    · by_cases h2 : c.action ∈ (["mask", "remove", "encrypt"] : List String)
      · simp only [h1, h2, specCompliant, Bool.not_true, Bool.false_or,
          decide_eq_true_eq, if_true, if_pos h2, ih]
        simp [h2]
        omega
      · simp only [h1, specCompliant, Bool.not_true, Bool.false_or,
          if_neg h2, ih]
        simp [h2]
    · simp only [h1, specCompliant, Bool.not_false, Bool.true_or, ih]
      simp [h1]
      omega

/-- The compliant count never exceeds the number of classifications. -/
lemma calcCompliantCount_le (cls : List DataClassification) (t : ComplianceLevel) :
    calcCompliantCount cls t ≤ cls.length := by
  rw [calcCompliantCount_eq_countP]
  exact List.countP_le_length (specCompliant t)

/- ### Validation lemmas -/

/-- The early-return loop returns false exactly when some classification is
strictly more restrictive than required and unmitigated (action allow). -/
lemma validateLoop_false_iff (req : ComplianceLevel) (cls : List DataClassification) :
    validateLoop req cls = false ↔
      ∃ c ∈ cls, isMoreRestrictive c.classification req = true ∧ c.action = "allow" := by
  induction cls with
  | nil => simp [validateLoop]
  | cons c rest ih =>
    simp only [validateLoop]
    by_cases h1 : isMoreRestrictive c.classification req
    · by_cases h2 : c.action = "allow"
      · simp [h1, h2]
      · simp [h1, h2, ih]
    · simp [h1, ih]

/- ### Store lemmas -/

/-- Writing one object leaves every other reference unchanged. -/
lemma readH_writeH_ne (h : Heap) (r r' : Nat) (d : Dict) (hne : r' ≠ r) :
    readH (writeH h r d) r' = readH h r' := by
  rw [readH, writeH, readH, List.getD_eq_getElem?_getD, List.getD_eq_getElem?_getD,
    List.getElem?_set_ne (Ne.symm hne)]

/-- Reading back a written object. -/
lemma readH_writeH_self (h : Heap) (r : Nat) (d : Dict) (hr : r < h.length) :
    readH (writeH h r d) r = d := by
  rw [readH, writeH, List.getD_eq_getElem?_getD, List.getElem?_set_eq_of_lt d hr]
  rfl

/-- Writing preserves the store size. -/
lemma writeH_length (h : Heap) (r : Nat) (d : Dict) :
    (writeH h r d).length = h.length := List.length_set h r d

/-- Allocation does not disturb existing references. -/
lemma readH_append_lt (h : Heap) (d : Dict) (r : Nat) (hr : r < h.length) :
    readH (h ++ [d]) r = readH h r := by
  rw [readH, readH, List.getD_eq_getElem?_getD, List.getD_eq_getElem?_getD,
    List.getElem?_append]
  simp [hr]

/-- Reading a freshly allocated object. -/
lemma readH_append_self (h : Heap) (d : Dict) : readH (h ++ [d]) h.length = d := by
  rw [readH, List.getD_eq_getElem?_getD, List.getElem?_concat_length]
  rfl

/-- The store-level `filter_data` loop writes only the filtered object, and
its content and bookkeeping agree with the pure loop. -/
lemma foldl_stepFilterH_spec (cls : List DataClassification) :
    ∀ (h : Heap) (rem msk : List String) (fRef : Nat), fRef < h.length →
    (cls.foldl (stepFilterH fRef) (h, rem, msk)).1.length = h.length ∧
    (∀ r', r' ≠ fRef →
      readH (cls.foldl (stepFilterH fRef) (h, rem, msk)).1 r' = readH h r') ∧
    readH (cls.foldl (stepFilterH fRef) (h, rem, msk)).1 fRef =
      (cls.foldl stepFilter (readH h fRef, rem, msk)).1 ∧
    (cls.foldl (stepFilterH fRef) (h, rem, msk)).2 =
      (cls.foldl stepFilter (readH h fRef, rem, msk)).2 := by
  induction cls with
  | nil =>
    intro h rem msk fRef _
    exact ⟨rfl, fun _ _ => rfl, rfl, rfl⟩
  | cons c rest ih =>
    intro h rem msk fRef hr
    have hstep : stepFilterH fRef (h, rem, msk) c =
        (writeH h fRef (stepFilter (readH h fRef, rem, msk) c).1,
         (stepFilter (readH h fRef, rem, msk) c).2.1,
         (stepFilter (readH h fRef, rem, msk) c).2.2) := rfl
    have hr' : fRef < (writeH h fRef (stepFilter (readH h fRef, rem, msk) c).1).length := by
      rw [writeH_length]; exact hr
    obtain ⟨ihl, ihf, ihc, ihb⟩ :=
      ih (writeH h fRef (stepFilter (readH h fRef, rem, msk) c).1)
        (stepFilter (readH h fRef, rem, msk) c).2.1
        (stepFilter (readH h fRef, rem, msk) c).2.2 fRef hr'
    have hread : readH (writeH h fRef (stepFilter (readH h fRef, rem, msk) c).1) fRef =
        (stepFilter (readH h fRef, rem, msk) c).1 :=
      readH_writeH_self h fRef _ hr
    refine ⟨?_, ?_, ?_, ?_⟩
    · rw [List.foldl_cons, hstep, ihl, writeH_length]
    · intro r' hner
      rw [List.foldl_cons, hstep, ihf r' hner, readH_writeH_ne h fRef r' _ hner]
    · rw [List.foldl_cons, hstep, ihc, hread, List.foldl_cons]
    · rw [List.foldl_cons, hstep, ihb, hread, List.foldl_cons]

/- ### `mask_sensitive_fields` lemmas -/

/-- Pointwise description of the masking loop on distinct requested names:
a requested, present key gets the masked original value; everything else is
untouched (absent requested names are ignored). -/
lemma maskSensitiveFields_get? (fs : List String) :
    ∀ (md : Dict), fs.Nodup →
    ∀ k, dictGet? (maskSensitiveFields md fs) k =
      if k ∈ fs ∧ (dictGet? md k).isSome = true then
        some (.vstr (maskFieldValue k (dictGetD md k)))
      else dictGet? md k := by
  induction fs with
  | nil =>
    intro md _ k
    simp [maskSensitiveFields]
  | cons f fs ih =>
    intro md hnd k
    rw [List.nodup_cons] at hnd
    obtain ⟨hf, hnd'⟩ := hnd
    have hrec : maskSensitiveFields md (f :: fs) =
        maskSensitiveFields (maskStep md f) fs := rfl
    rw [hrec, ih (maskStep md f) hnd' k]
    by_cases hk : k = f
    · subst hk
      by_cases hhas : dictHas md k
      · have hset : maskStep md k =
            dictSet md k (.vstr (maskFieldValue k (dictGetD md k))) := by
          simp [maskStep, hhas]
        rw [hset]
        rw [if_neg (by simp [hf]), if_pos ?_]
        · rw [dictGet?_set, if_pos rfl]
        · refine ⟨List.mem_cons_self k fs, ?_⟩
          rw [dictHas] at hhas
          exact hhas
      · have hset : maskStep md k = md := by
          simp [maskStep, hhas]
        rw [hset, if_neg (by simp [hf]), if_neg ?_]
        rintro ⟨-, hsome⟩
        rw [dictHas] at hhas
        exact hhas hsome
    · have hg : dictGet? (maskStep md f) k = dictGet? md k := by
        unfold maskStep
        split_ifs with hs
        · rw [dictGet?_set, if_neg hk]
        · rfl
      have hgd : dictGetD (maskStep md f) k = dictGetD md k := by
        rw [dictGetD, dictGetD, hg]
      rw [hg, hgd]
      simp [List.mem_cons, hk]

/-- The input dict is not consulted or modified by the masking loop frame:
the store-level masking loop writes only the copy, and its content agrees
with the pure loop. -/
lemma foldl_maskStepH_spec (fs : List String) :
    ∀ (h : Heap) (mRef : Nat), mRef < h.length →
    (fs.foldl (maskStepH mRef) h).length = h.length ∧
    (∀ r', r' ≠ mRef → readH (fs.foldl (maskStepH mRef) h) r' = readH h r') ∧
    readH (fs.foldl (maskStepH mRef) h) mRef = fs.foldl maskStep (readH h mRef) := by
  induction fs with
  | nil =>
    intro h mRef _
    exact ⟨rfl, fun _ _ => rfl, rfl⟩
  | cons f fs ih =>
    intro h mRef hr
    by_cases hs : dictHas (readH h mRef) f
    · have hstep : maskStepH mRef h f = writeH h mRef (maskStep (readH h mRef) f) := by
        unfold maskStepH maskStep
        simp [hs]
      have hr' : mRef < (writeH h mRef (maskStep (readH h mRef) f)).length := by
        rw [writeH_length]; exact hr
      obtain ⟨ihl, ihf, ihc⟩ := ih (writeH h mRef (maskStep (readH h mRef) f)) mRef hr'
      have hread : readH (writeH h mRef (maskStep (readH h mRef) f)) mRef =
          maskStep (readH h mRef) f :=
        readH_writeH_self h mRef _ hr
      refine ⟨?_, ?_, ?_⟩
      · rw [List.foldl_cons, hstep, ihl, writeH_length]
      · intro r' hner
        rw [List.foldl_cons, hstep, ihf r' hner, readH_writeH_ne h mRef r' _ hner]
      · rw [List.foldl_cons, hstep, ihc, hread, List.foldl_cons]
    · have hstep : maskStepH mRef h f = h := by
        unfold maskStepH
        simp [hs]
      have hpure : maskStep (readH h mRef) f = readH h mRef := by
        unfold maskStep
        simp [hs]
      obtain ⟨ihl, ihf, ihc⟩ := ih h mRef hr
      refine ⟨?_, ?_, ?_⟩
      · rw [List.foldl_cons, hstep, ihl]
      · intro r' hner
        rw [List.foldl_cons, hstep, ihf r' hner]
      · rw [List.foldl_cons, hstep, ihc, List.foldl_cons, hpure]

/- ### Further shared lemmas for the claims -/

/-- Every classification produced by `classify_data` carries a remove, mask
or allow action (never encrypt). -/
lemma classifyData_action (d : Dict) (c : DataClassification)
    (hc : c ∈ classifyData d) :
    c.action = "remove" ∨ c.action = "mask" ∨ c.action = "allow" := by
  obtain ⟨p, hp, hpc⟩ := List.mem_filterMap.mp hc
  exact classifyField_action p.1 p.2 c hpc

/-- Operation `classify_data` as a map when every field classifies the same way. -/
lemma classifyData_eq_map (d : Dict) (f : String × Value → DataClassification)
    (h : ∀ p ∈ d, classifyField p.1 p.2 = some (f p)) :
    classifyData d = d.map f := by
  induction d with
  | nil => rfl
  | cons p t ih =>
    obtain ⟨k, v⟩ := p
    rw [classifyData_cons k v t (f (k, v)) (h (k, v) (List.mem_cons_self _ _)),
      ih (fun q hq => h q (List.mem_cons_of_mem _ hq)), List.map_cons]

/-- An allow-action classification leaves the loop state unchanged. -/
lemma stepFilter_allow (st : Dict × List String × List String)
    (c : DataClassification) (hc : c.action = "allow") :
    stepFilter st c = st := by
  simp [stepFilter, hc]

/-- A loop over allow-action classifications is the identity. -/
lemma foldl_stepFilter_allow (cls : List DataClassification)
    (hall : ∀ c ∈ cls, c.action = "allow") :
    ∀ st, cls.foldl stepFilter st = st := by
  induction cls with
  | nil => intro st; rfl
  | cons c rest ih =>
    intro st
    rw [List.foldl_cons, stepFilter_allow st c (hall c (List.mem_cons_self _ _))]
    exact ih (fun c' hc' => hall c' (List.mem_cons_of_mem _ hc')) st

/-- The tier scan falls through to the default when nothing matches. -/
lemma classifyWithRules_default (fname fl vs : String) (rs : List ClassRule)
    (hno : ∀ r ∈ rs, fl ∉ r.fields ∧ r.patterns.any (fun p => p vs) = false) :
    classifyWithRules fname fl vs rs = some (defaultClassification fname) := by
  induction rs with
  | nil => rfl
  | cons r rest ih =>
    obtain ⟨hf, hp⟩ := hno r (List.mem_cons_self _ _)
    simp only [classifyWithRules]
    rw [if_neg hf, if_neg (by simp [hp])]
    exact ih (fun r' h' => hno r' (List.mem_cons_of_mem _ h'))

/- ### The claims -/

/-- C1: a field whose normalized name is in the INTERNAL exact-name set but
whose stringified value matches some RESTRICTED content pattern classifies
as RESTRICTED with the RESTRICTED action (remove), because the tiers are
scanned RESTRICTED first and the first matching tier wins. -/
theorem claim1_restricted_pattern_beats_internal_name (fname : String) (v : Value)
    (h1 : strLower fname ∈ internalRule.fields)
    (h2 : restrictedRule.patterns.any (fun p => p (classifyValueStr v)) = true) :
    classifyField fname v =
      some { field_name := fname, classification := .RESTRICTED,
             reason := patReason "restricted", action := "remove" } := by
  have hnr : strLower fname ∉ restrictedRule.fields :=
    (by decide : ∀ x ∈ internalRule.fields, x ∉ restrictedRule.fields) _ h1
  rw [classifyField, classificationRules]
  simp only [classifyWithRules]
  rw [if_neg hnr, if_pos h2]
  rfl

/-- Witness for C1 at the field name `department` (INTERNAL name set) with
an SSN-shaped value (RESTRICTED pattern). -/
theorem claim1_witness :
    strLower "department" ∈ internalRule.fields ∧
    restrictedRule.patterns.any
      (fun p => p (classifyValueStr (.vstr "111-22-3333"))) = true ∧
    classifyField "department" (.vstr "111-22-3333") =
      some { field_name := "department", classification := .RESTRICTED,
             reason := patReason "restricted", action := "remove" } :=
  ⟨by decide, by decide,
    claim1_restricted_pattern_beats_internal_name "department"
      (.vstr "111-22-3333") (by decide) (by decide)⟩

/-- C3: the compliance score is 1 on an empty classification list, is
otherwise the compliant count (tier not more restrictive than the target,
or a mask/remove/encrypt action) over the total count, and always lies in
the interval from 0 to 1. -/
theorem claim3_compliance_score_spec (cls : List DataClassification)
    (t : ComplianceLevel) :
    (cls = [] → calculateComplianceScore cls t = 1) ∧
    (cls ≠ [] → calculateComplianceScore cls t =
      (cls.countP (specCompliant t) : ℚ) / (cls.length : ℚ)) ∧
    0 ≤ calculateComplianceScore cls t ∧ calculateComplianceScore cls t ≤ 1 := by
  refine ⟨?_, ?_, ?_, ?_⟩
  · intro h
    subst h
    rfl
  · intro h
    rw [calculateComplianceScore, if_neg (fun hh => h (List.isEmpty_iff.mp hh)),
      calcCompliantCount_eq_countP]
  · rw [calculateComplianceScore]
    split_ifs with h
    · norm_num
    · positivity
  · rw [calculateComplianceScore]
    split_ifs with h
    · norm_num
    · have hlen : 0 < cls.length :=
        List.length_pos.mpr (fun hh => h (by simp [hh]))
      rw [div_le_one (by exact_mod_cast hlen)]
      exact_mod_cast calcCompliantCount_le cls t

/-- Witness for C3 on a one-element classification list. -/
theorem claim3_witness :
    calculateComplianceScore [defaultClassification "x"] .RESTRICTED =
      (([defaultClassification "x"].countP (specCompliant .RESTRICTED) : ℚ) /
        (([defaultClassification "x"] : List DataClassification).length : ℚ)) :=
  (claim3_compliance_score_spec [defaultClassification "x"] .RESTRICTED).2.1
    (by decide)

/-- C4: `validate_compliance` returns false exactly when some field
classification is strictly more restrictive than the required tier and has
the unmitigated action allow; it returns true in every other case. -/
theorem claim4_validate_compliance_false_iff (d : Dict) (req : ComplianceLevel) :
    validateCompliance d req = false ↔
      ∃ c ∈ classifyData d,
        isMoreRestrictive c.classification req = true ∧ c.action = "allow" :=
  validateLoop_false_iff req (classifyData d)

/-- C5: `_classify_field` is total (always exactly one classification, with
null coercing to the empty string), falls back to the INTERNAL / allow /
"Default classification" verdict when no tier matches, and `classify_data`
yields exactly one classification per record key in iteration order. -/
theorem claim5_classify_total_default (fname : String) (v : Value) (d : Dict) :
    (∃ c, classifyField fname v = some c) ∧
    classifyValueStr Value.vnone = "" ∧
    ((∀ r ∈ classificationRules,
        strLower fname ∉ r.fields ∧
        r.patterns.any (fun p => p (classifyValueStr v)) = false) →
      classifyField fname v = some (defaultClassification fname)) ∧
    (classifyData d).map (fun c => c.field_name) = dictKeys d := by
  refine ⟨Option.isSome_iff_exists.mp (classifyField_isSome fname v), rfl, ?_,
    classifyData_names d⟩
  intro hno
  exact classifyWithRules_default fname (strLower fname) (classifyValueStr v)
    classificationRules hno

/-- Witness for C5: an unmatched field (with a null value) receives the
default classification. -/
theorem claim5_witness :
    classifyField "unclassified_field" Value.vnone =
      some (defaultClassification "unclassified_field") :=
  (claim5_classify_total_default "unclassified_field" Value.vnone []).2.2.1
    (by decide)

/-- C9: under the static rule tables no classification ever carries the
encrypt action, so the encrypt branch of `filter_data` is unreachable. -/
theorem claim9_no_encrypt_action (fname : String) (v : Value)
    (c : DataClassification) (h : classifyField fname v = some c) :
    c.action ≠ "encrypt" ∧
      (c.action = "remove" ∨ c.action = "mask" ∨ c.action = "allow") := by
  have hc := classifyField_action fname v c h
  refine ⟨?_, hc⟩
  rcases hc with h1 | h1 | h1 <;> rw [h1] <;> decide

/-- Witness for C9 at a RESTRICTED-named field. -/
theorem claim9_witness :
    ({ field_name := "password", classification := ComplianceLevel.RESTRICTED,
       reason := nameReason "password" "restricted",
       action := "remove" } : DataClassification).action ≠ "encrypt" ∧
    (({ field_name := "password", classification := ComplianceLevel.RESTRICTED,
        reason := nameReason "password" "restricted",
        action := "remove" } : DataClassification).action = "remove" ∨
      ({ field_name := "password", classification := ComplianceLevel.RESTRICTED,
         reason := nameReason "password" "restricted",
         action := "remove" } : DataClassification).action = "mask" ∨
      ({ field_name := "password", classification := ComplianceLevel.RESTRICTED,
         reason := nameReason "password" "restricted",
         action := "remove" } : DataClassification).action = "allow") :=
  claim9_no_encrypt_action "password" (.vstr "x") _ (by decide)

/-- C6 fails as stated: the all-PUBLIC-names round trip is broken by a
value that matches a RESTRICTED content pattern.  The record
`{"number": "111-22-3333"}` uses only PUBLIC names, yet `filter_data`
removes the field. -/
theorem claim6_counterexample :
    (∀ p ∈ ([("number", Value.vstr "111-22-3333")] : Dict),
      strLower p.1 ∈ publicRule.fields) ∧
    (filterData [("number", Value.vstr "111-22-3333")] .INTERNAL).removed_fields ≠ [] ∧
    (filterData [("number", Value.vstr "111-22-3333")] .INTERNAL).filtered_data ≠
      [("number", Value.vstr "111-22-3333")] := by
  refine ⟨by decide, by decide, by decide⟩

/-- C6 (amended): for a record whose field names all normalize into the
PUBLIC exact-name set and whose stringified values match no RESTRICTED or
CONFIDENTIAL content pattern, `filter_data` at any target tier returns
score 1, removes nothing, masks nothing, and keeps the record unchanged. -/
theorem claim6_all_public_round_trip (d : Dict) (t : ComplianceLevel)
    (hnames : ∀ p ∈ d, strLower p.1 ∈ publicRule.fields)
    (hpats : ∀ p ∈ d,
      restrictedRule.patterns.any (fun q => q (classifyValueStr p.2)) = false ∧
      confidentialRule.patterns.any (fun q => q (classifyValueStr p.2)) = false) :
    (filterData d t).compliance_score = 1 ∧
    (filterData d t).removed_fields = [] ∧
    (filterData d t).masked_fields = [] ∧
    (filterData d t).filtered_data = d := by
  have hdisj : ∀ x ∈ publicRule.fields,
      x ∉ restrictedRule.fields ∧ x ∉ confidentialRule.fields ∧
      x ∉ internalRule.fields := by decide
  have hcls : ∀ p ∈ d, classifyField p.1 p.2 =
      some { field_name := p.1, classification := .PUBLIC,
             reason := nameReason p.1 "public", action := "allow" } := by
    intro p hp
    obtain ⟨hd1, hd2, hd3⟩ := hdisj (strLower p.1) (hnames p hp)
    obtain ⟨hp1, hp2⟩ := hpats p hp
    rw [classifyField, classificationRules]
    simp only [classifyWithRules]
    rw [if_neg hd1, if_neg (by simp [hp1]), if_neg hd2, if_neg (by simp [hp2]),
      if_neg hd3, if_neg (by simp [internalRule]), if_pos (hnames p hp)]
    rfl
  have hcd : classifyData d = d.map (fun p =>
      { field_name := p.1, classification := .PUBLIC,
        reason := nameReason p.1 "public", action := "allow" }) :=
    classifyData_eq_map d _ hcls
  have hallow : ∀ c ∈ classifyData d, c.action = "allow" := by
    intro c hc
    rw [hcd] at hc
    obtain ⟨p, -, rfl⟩ := List.mem_map.mp hc
    rfl
  have hloop := foldl_stepFilter_allow (classifyData d) hallow (d, [], [])
  refine ⟨?_, ?_, ?_, ?_⟩
  · show calculateComplianceScore (classifyData d) t = 1
    rw [calculateComplianceScore]
    split_ifs with he
    · rfl
    · have hcount : calcCompliantCount (classifyData d) t = (classifyData d).length := by
        rw [calcCompliantCount_eq_countP]
        apply List.countP_eq_length.mpr
        intro c hc
        rw [hcd] at hc
        obtain ⟨p, -, rfl⟩ := List.mem_map.mp hc
        cases t <;> rfl
      rw [hcount]
      have hlen : 0 < (classifyData d).length :=
        List.length_pos.mpr (fun hh => he (by simp [hh]))
      rw [div_self (by exact_mod_cast Nat.pos_iff_ne_zero.mp hlen)]
  · show (List.foldl stepFilter (d, [], []) (classifyData d)).2.1 = []
    rw [hloop]
  · show (List.foldl stepFilter (d, [], []) (classifyData d)).2.2 = []
    rw [hloop]
  · show (List.foldl stepFilter (d, [], []) (classifyData d)).1 = d
    rw [hloop]

/-- Witness for the amended C6 on the spec's example record. -/
theorem claim6_witness :
    (filterData [("number", Value.vstr "INC001"), ("priority", Value.vstr "1"),
        ("state", Value.vstr "open")] .RESTRICTED).compliance_score = 1 ∧
    (filterData [("number", Value.vstr "INC001"), ("priority", Value.vstr "1"),
        ("state", Value.vstr "open")] .RESTRICTED).removed_fields = [] ∧
    (filterData [("number", Value.vstr "INC001"), ("priority", Value.vstr "1"),
        ("state", Value.vstr "open")] .RESTRICTED).masked_fields = [] ∧
    (filterData [("number", Value.vstr "INC001"), ("priority", Value.vstr "1"),
        ("state", Value.vstr "open")] .RESTRICTED).filtered_data =
      [("number", Value.vstr "INC001"), ("priority", Value.vstr "1"),
       ("state", Value.vstr "open")] :=
  claim6_all_public_round_trip _ .RESTRICTED (by decide) (by decide)

/-- C7: the removed and masked field-name lists of a `filter_data` result
are disjoint (each field has exactly one classification with one action;
keys of a real dict are unique). -/
theorem claim7_removed_masked_disjoint (d : Dict) (t : ComplianceLevel)
    (hnd : (dictKeys d).Nodup) (k : String)
    (hr : k ∈ (filterData d t).removed_fields) :
    k ∉ (filterData d t).masked_fields := by
  obtain ⟨h1, h2, -⟩ := filterData_spec d t hnd
  rw [h1, mem_actionNames] at hr
  rw [h2]
  intro hm
  rw [mem_actionNames] at hm
  obtain ⟨c, hc, hcn, hca⟩ := hr
  obtain ⟨c', hc', hcn', hca'⟩ := hm
  have hnodup : ((classifyData d).map (fun c => c.field_name)).Nodup := by
    rw [classifyData_names]; exact hnd
  have hcc : c = c' :=
    List.inj_on_of_nodup_map hnodup hc hc' (by rw [hcn, hcn'])
  have : ("remove" : String) = "mask" := by rw [← hca, hcc, hca']
  exact absurd this (by decide)

/-- Witness for C7 on a record with one removed field. -/
theorem claim7_witness :
    "password" ∉
      (filterData [("password", Value.vstr "x")] .INTERNAL).masked_fields :=
  claim7_removed_masked_disjoint [("password", Value.vstr "x")] .INTERNAL
    (by decide) "password" (by decide)

/-- C8: the filtered dict holds exactly the input keys minus the removed
ones, and any key that is neither removed nor masked and whose
classification action is not encrypt keeps its original value. -/
theorem claim8_filtered_keys_values (d : Dict) (t : ComplianceLevel)
    (hnd : (dictKeys d).Nodup) :
    (∀ k, dictHas (filterData d t).filtered_data k = true ↔
      (dictHas d k = true ∧ k ∉ (filterData d t).removed_fields)) ∧
    (∀ k v, dictGet? d k = some v →
      k ∉ (filterData d t).removed_fields →
      k ∉ (filterData d t).masked_fields →
      (∀ c ∈ (filterData d t).classifications,
        c.field_name = k → c.action ≠ "encrypt") →
      dictGet? (filterData d t).filtered_data k = some v) := by
  obtain ⟨h1, h2, h3⟩ := filterData_spec d t hnd
  have hnodup : ((classifyData d).map (fun c => c.field_name)).Nodup := by
    rw [classifyData_names]; exact hnd
  constructor
  · intro k
    rw [h1, dictHas, h3 k]
    cases hfind : (classifyData d).find? (fun c => decide (c.field_name = k)) with
    | none =>
      have hnot : k ∉ actionNames "remove" (classifyData d) := by
        rw [mem_actionNames]
        rintro ⟨c, hc, hcn, -⟩
        have := List.find?_eq_none.mp hfind c hc
        simp only [decide_eq_true_eq] at this
        exact this hcn
      simp [dictHas, hnot]
    | some c =>
      have hcmem : c ∈ classifyData d := List.mem_of_find?_eq_some hfind
      have hcn : c.field_name = k := by simpa using List.find?_some hfind
      have hkin : dictHas d k = true := by
        rw [dictHas_iff_mem_keys, ← classifyData_names]
        exact hcn ▸ List.mem_map_of_mem (fun x => x.field_name) hcmem
      have hnotrem : c.action ≠ "remove" → k ∉ actionNames "remove" (classifyData d) := by
        intro hne
        rw [mem_actionNames]
        rintro ⟨c', hc', hcn', hca'⟩
        have hcc : c = c' :=
          List.inj_on_of_nodup_map hnodup hcmem hc' (by rw [hcn, hcn'])
        exact hne (hcc ▸ hca')
      rcases classifyData_action d c hcmem with ha | ha | ha
      · have hin : k ∈ actionNames "remove" (classifyData d) :=
          (mem_actionNames _ k _).mpr ⟨c, hcmem, hcn, ha⟩
        simp [ha, hin]
      · have hnot := hnotrem (by rw [ha]; decide)
        simp [ha, hkin, hnot]
      · have hnot := hnotrem (by rw [ha]; decide)
        simp [ha, hnot]
        rfl
  · intro k v hv hrem hmask henc
    rw [h1] at hrem
    rw [h2] at hmask
    rw [h3 k]
    cases hfind : (classifyData d).find? (fun c => decide (c.field_name = k)) with
    | none => exact hv
    | some c =>
      have hcmem : c ∈ classifyData d := List.mem_of_find?_eq_some hfind
      have hcn : c.field_name = k := by simpa using List.find?_some hfind
      rcases classifyData_action d c hcmem with ha | ha | ha
      · exact absurd ((mem_actionNames _ k _).mpr ⟨c, hcmem, hcn, ha⟩) hrem
      · exact absurd ((mem_actionNames _ k _).mpr ⟨c, hcmem, hcn, ha⟩) hmask
      · simp [ha, hv]

/-- Witness for C8: the untouched field of a mixed record keeps its value. -/
theorem claim8_witness :
    dictGet? (filterData [("a", Value.vint 1), ("password", Value.vstr "s")]
        .INTERNAL).filtered_data "a" = some (Value.vint 1) :=
  (claim8_filtered_keys_values [("a", Value.vint 1), ("password", Value.vstr "s")]
      .INTERNAL (by decide)).2 "a" (Value.vint 1) (by decide) (by decide)
    (by decide) (by decide)

/-- C2: `filter_data` never mutates the caller's record object: after the
call the input reference holds exactly its old content, the returned
filtered object is a different reference, and writing to the returned
reference cannot change the input reference. -/
theorem claim2_filter_data_no_mutation (h : Heap) (dataRef : Nat)
    (t : ComplianceLevel) (href : dataRef < h.length) :
    readH (filterDataH h dataRef t).1 dataRef = readH h dataRef ∧
    (filterDataH h dataRef t).2.filtRef ≠ dataRef ∧
    ∀ d' : Dict,
      readH (writeH (filterDataH h dataRef t).1
          (filterDataH h dataRef t).2.filtRef d') dataRef =
        readH (filterDataH h dataRef t).1 dataRef := by
  have hne : dataRef ≠ h.length := Nat.ne_of_lt href
  have hlen : h.length < (h ++ [readH h dataRef]).length := by simp
  obtain ⟨hl, hf, hc, hb⟩ := foldl_stepFilterH_spec (classifyData (readH h dataRef))
    (h ++ [readH h dataRef]) [] [] h.length hlen
  have hheap : (filterDataH h dataRef t).1 =
      ((classifyData (readH h dataRef)).foldl (stepFilterH h.length)
        (h ++ [readH h dataRef], [], [])).1 := rfl
  have hfr : (filterDataH h dataRef t).2.filtRef = h.length := rfl
  refine ⟨?_, ?_, ?_⟩
  · rw [hheap, hf dataRef hne, readH_append_lt h _ dataRef href]
  · rw [hfr]
    exact hne.symm
  · intro d'
    rw [hheap, hfr]
    exact readH_writeH_ne _ h.length dataRef d' hne

/-- Witness for C2 on the spec's example: the input keeps
`password = "secret123"` and the returned filtered object lacks the
`password` key. -/
theorem claim2_witness :
    readH (filterDataH [[("a", Value.vint 1), ("password", Value.vstr "secret123")]]
        0 .INTERNAL).1 0 =
      [("a", Value.vint 1), ("password", Value.vstr "secret123")] ∧
    dictGet? (readH (filterDataH
        [[("a", Value.vint 1), ("password", Value.vstr "secret123")]]
        0 .INTERNAL).1 0) "password" = some (Value.vstr "secret123") ∧
    dictGet? (readH (filterDataH
        [[("a", Value.vint 1), ("password", Value.vstr "secret123")]]
        0 .INTERNAL).1
        (filterDataH [[("a", Value.vint 1), ("password", Value.vstr "secret123")]]
          0 .INTERNAL).2.filtRef) "password" = Option.none := by
  refine ⟨?_, by decide, by decide⟩
  exact (claim2_filter_data_no_mutation
    [[("a", Value.vint 1), ("password", Value.vstr "secret123")]] 0 .INTERNAL
    (by decide)).1

/-- C10: `mask_sensitive_fields` returns a fresh object in which every
requested field present in the record carries `_mask_field_value` of its
name and original value, every other field keeps its value, absent
requested names are ignored, and the caller's record object is untouched. -/
theorem claim10_mask_sensitive_fields_spec (h : Heap) (dataRef : Nat)
    (fs : List String) (href : dataRef < h.length) (hnd : fs.Nodup) :
    readH (maskSensitiveFieldsH h dataRef fs).1 dataRef = readH h dataRef ∧
    (maskSensitiveFieldsH h dataRef fs).2 ≠ dataRef ∧
    ∀ k, dictGet? (readH (maskSensitiveFieldsH h dataRef fs).1
        (maskSensitiveFieldsH h dataRef fs).2) k =
      (if k ∈ fs ∧ (dictGet? (readH h dataRef) k).isSome = true then
        some (.vstr (maskFieldValue k (dictGetD (readH h dataRef) k)))
      else dictGet? (readH h dataRef) k) := by
  have hne : dataRef ≠ h.length := Nat.ne_of_lt href
  have hlen : h.length < (h ++ [readH h dataRef]).length := by simp
  obtain ⟨hl, hf, hc⟩ := foldl_maskStepH_spec fs (h ++ [readH h dataRef]) h.length hlen
  have hheap : (maskSensitiveFieldsH h dataRef fs).1 =
      fs.foldl (maskStepH h.length) (h ++ [readH h dataRef]) := rfl
  have hfr : (maskSensitiveFieldsH h dataRef fs).2 = h.length := rfl
  refine ⟨?_, ?_, ?_⟩
  · rw [hheap, hf dataRef hne, readH_append_lt h _ dataRef href]
  · rw [hfr]
    exact hne.symm
  · intro k
    rw [hheap, hfr, hc, readH_append_self]
    exact maskSensitiveFields_get? fs (readH h dataRef) hnd k

/-- Witness for C10: the present requested field is masked, queried through
the returned reference. -/
theorem claim10_witness :
    dictGet? (readH (maskSensitiveFieldsH
        [[("password", Value.vstr "secret123"), ("state", Value.vstr "open")]]
        0 ["password", "absent_field"]).1
        (maskSensitiveFieldsH
          [[("password", Value.vstr "secret123"), ("state", Value.vstr "open")]]
          0 ["password", "absent_field"]).2) "password" =
      (if "password" ∈ ["password", "absent_field"] ∧
          (dictGet? (readH [[("password", Value.vstr "secret123"),
            ("state", Value.vstr "open")]] 0) "password").isSome = true then
        some (.vstr (maskFieldValue "password"
          (dictGetD (readH [[("password", Value.vstr "secret123"),
            ("state", Value.vstr "open")]] 0) "password")))
      else dictGet? (readH [[("password", Value.vstr "secret123"),
        ("state", Value.vstr "open")]] 0) "password") :=
  (claim10_mask_sensitive_fields_spec
    [[("password", Value.vstr "secret123"), ("state", Value.vstr "open")]]
    0 ["password", "absent_field"] (by decide) (by decide)).2.2 "password"
